import Mathlib

/-! Verification of the storage-semantics layer of `GitHubFileStorage.js`
(the `github-file-manager` package): a shallow embedding of its operations —
`upload`, `listAllFiles`, `download`, `listFilesInDirectory`, `downloadAll`,
`deleteFile` — and proofs of the specified properties.

JavaScript strings are modelled as lists of characters; the GitHub contents
API (the external collaborator) is modelled as an association list from URL
path to file metadata, with PUT/DELETE following the documented contract
(sha present means update with precondition, absent means create). Remote
calls that the code issues are logged explicitly so that frame properties
("no write was issued") are statable. -/

/-- JavaScript strings are modelled as lists of characters. -/
abbrev JStr := List Char

/-- Coerce a Lean string literal to the model's string type. -/
def js (s : String) : JStr := s.data

/-- An axios failure as the code's catch blocks inspect it: either an HTTP
error response carrying a status (`error.response.status`), or a transport
failure with no `error.response` at all (network error). -/
inductive AxiosErr where
  | respErr (status : Nat)
  | noResp
deriving DecidableEq, Repr

/-- Metadata of a stored file as the contents API returns it: `sha`
(revision token), optional inline base64 `content`, optional `download_url`. -/
structure RemoteFile where
  sha : JStr
  content : Option JStr
  download_url : Option JStr
deriving DecidableEq, Repr

/-- The remote store: an association list from URL path to file metadata.
Modelled from the spec (section 6): the remote store is an external
collaborator outside `src/`, treated as authoritative shared state. -/
abbrev Store := List (JStr × RemoteFile)

/-- Lookup of a path in the store. -/
def storeLookup (s : Store) (p : JStr) : Option RemoteFile :=
  match s with
  | [] => none
  | (q, f) :: rest => if q = p then some f else storeLookup rest p

/-- Replace or insert the file at path `p`. -/
def storeSet (s : Store) (p : JStr) (f : RemoteFile) : Store :=
  match s with
  | [] => [(p, f)]
  | (q, g) :: rest => if q = p then (p, f) :: rest else (q, g) :: storeSet rest p f

/-- Remove the file at path `p`. -/
def storeRemove (s : Store) (p : JStr) : Store :=
  match s with
  | [] => []
  | (q, g) :: rest => if q = p then rest else (q, g) :: storeRemove rest p

/-- The fresh metadata the store assigns on a successful PUT; the sha is an
opaque token, modelled as a tag character consed onto the content. -/
def freshFile (tag : Char) (content : JStr) : RemoteFile :=
  ⟨tag :: content, some content, none⟩

/-- Modelled from the spec (section 6, `put`): `revision` present means
update with precondition (mismatch is a conflict), absent means create
(existing file makes the create fail). Returns the new store and metadata. -/
def storePut (s : Store) (p : JStr) (content : JStr) (sha : Option JStr) :
    Except AxiosErr (Store × RemoteFile) :=
  match storeLookup s p, sha with
  | none, none =>
    let f := freshFile 'n' content
    .ok (storeSet s p f, f)
  | some old, some sh =>
    if old.sha = sh then
      let f := freshFile 'u' content
      .ok (storeSet s p f, f)
    else .error (.respErr 409)
  | some _, none => .error (.respErr 422)
  | none, some _ => .error (.respErr 404)

/-- Modelled from the spec (section 6, `delete`): the delete carries the
revision as a precondition; a mismatch is a conflict, a missing path is
not found. -/
def storeDelete (s : Store) (p : JStr) (sh : JStr) : Except AxiosErr Store :=
  match storeLookup s p with
  | none => .error (.respErr 404)
  | some f => if f.sha = sh then .ok (storeRemove s p) else .error (.respErr 409)

/-- The GET on a path as `upload`, `download` and `deleteFile` issue it:
found metadata, or a 404 error response when the path is absent. -/
def storeGet (s : Store) (p : JStr) : Except AxiosErr RemoteFile :=
  match storeLookup s p with
  | some f => .ok f
  | none => .error (.respErr 404)

/-- First index at which `needle` occurs in the second argument, embedding
JS `String.prototype.indexOf` (which returns the first occurrence). -/
def findSubIdx (needle : JStr) : JStr → Option Nat
  | [] => if needle.isEmpty then some 0 else none
  | c :: t =>
    if needle.isPrefixOf (c :: t) then some 0
    else (findSubIdx needle t).map (· + 1)

/-- JS `hay.indexOf(needle)`: the first index, or `-1` when absent. -/
def jsIndexOf (hay needle : JStr) : Int :=
  match findSubIdx needle hay with
  | some i => (i : Int)
  | none => -1

/-- Embeds `upload`'s data-URI cleanup (GitHubFileStorage.js lines 39-43):
when the content starts with `data:`, everything up to and including the
first `base64,` marker is dropped (`indexOf` returns `-1` when the marker
is absent, so `-1 + 7 = 6` characters are dropped in that corner case,
exactly as `slice` does in the source). -/
def normalizeContent (file : JStr) : JStr :=
  if (js "data:").isPrefixOf file then
    file.drop (jsIndexOf file (js "base64,") + 7).toNat
  else file

/-- The URL path `upload`, `download` and `deleteFile` build for a file:
the template `filepath + slash + filename`. -/
def uploadUrl (filepath filename : JStr) : JStr := filepath ++ ('/' :: filename)

/-- Decidable equality for `Except`, used to evaluate run results on
concrete inputs. -/
instance exceptDecEq {ε α : Type} [DecidableEq ε] [DecidableEq α] :
    DecidableEq (Except ε α)
  | .ok a, .ok b =>
    if h : a = b then .isTrue (congrArg Except.ok h)
    else .isFalse fun hc => h (Except.ok.inj hc)
  | .error a, .error b =>
    if h : a = b then .isTrue (congrArg Except.error h)
    else .isFalse fun hc => h (Except.error.inj hc)
  | .ok _, .error _ => .isFalse fun hc => Except.noConfusion hc
  | .error _, .ok _ => .isFalse fun hc => Except.noConfusion hc

/-- The error outcomes of `upload`: the `File is required` guard, an
existence-check error rethrown as-is (line 57), and a PUT failure wrapped
as `Error uploading file to GitHub:` (line 93). -/
inductive UpErr where
  | fileRequired
  | rethrown (e : AxiosErr)
  | uploadWrapped (e : AxiosErr)
deriving DecidableEq, Repr

/-- The object `upload` resolves with: a message and the PUT response data
(`null` on the skipped-exists outcome). -/
structure UploadOutcome where
  message : JStr
  data : Option RemoteFile
deriving DecidableEq, Repr

/-- One run of `upload` observed in full: its result, the final store, the
number of GET requests issued and the list of PUT requests issued (each as
url path, transmitted content, sha precondition if any). -/
structure UploadEff where
  result : Except UpErr UploadOutcome
  store : Store
  gets : Nat
  puts : List (JStr × JStr × Option JStr)
deriving DecidableEq, Repr

/-- Embeds the rethrow guard of `upload`'s existence check (line 56):
`error.response && error.response.status !== 404`. A transport failure has
no `error.response`, so the guard is false for it and the error is
swallowed. -/
def rethrowGuard : AxiosErr → Bool
  | .respErr s => s ≠ 404
  | .noResp => false

/-- The captured sha after the existence check, collapsed by JS truthiness:
`null` and the empty string behave identically at every later use
(`sha && !overwrite`, the PUT branch, the message choice). -/
def shaTruthy (d : RemoteFile) : Option JStr :=
  if d.sha.isEmpty then none else some d.sha

/-- Embeds `upload` from the existence check's outcome onward
(lines 61-94): skip when a truthy sha was captured and overwrite is off,
otherwise PUT with the sha as precondition exactly when one was captured. -/
def uploadAfterCheck (s : Store) (url content : JStr) (overwrite : Bool)
    (shaT : Option JStr) (gets : Nat) : UploadEff :=
  match shaT with
  | some sh =>
    if overwrite then
      match storePut s url content (some sh) with
      | .ok (s2, d) =>
        ⟨.ok ⟨js "File updated successfully!", some d⟩, s2, gets, [(url, content, some sh)]⟩
      | .error e => ⟨.error (.uploadWrapped e), s, gets, [(url, content, some sh)]⟩
    else ⟨.ok ⟨js "File already exists!", none⟩, s, gets, []⟩
  | none =>
    match storePut s url content none with
    | .ok (s2, d) =>
      ⟨.ok ⟨js "File uploaded successfully!", some d⟩, s2, gets, [(url, content, none)]⟩
    | .error e => ⟨.error (.uploadWrapped e), s, gets, [(url, content, none)]⟩

/-- Embeds `upload` (GitHubFileStorage.js lines 35-95) against store `s`.
`inj` injects a failure into the existence-check GET (`none` means the GET
behaves as the store dictates); the PUTs are driven by the store. -/
def upload (s : Store) (inj : Option AxiosErr) (file filepath filename : JStr)
    (overwrite : Bool) : UploadEff :=
  if file.isEmpty then ⟨.error .fileRequired, s, 0, []⟩
  else
    let fileContent := normalizeContent file
    let url := uploadUrl filepath filename
    let getRes : Except AxiosErr RemoteFile :=
      match inj with
      | some e => .error e
      | none => storeGet s url
    match getRes with
    | .ok d => uploadAfterCheck s url fileContent overwrite (shaTruthy d) 1
    | .error e =>
      if rethrowGuard e then ⟨.error (.rethrown e), s, 1, []⟩
      else uploadAfterCheck s url fileContent overwrite none 1

/-- Embeds the public `upload` signature with its JS parameter defaults
(line 35): `filepath` defaults to the empty string, `filename` to
`uploaded_file.txt`, `overwrite` to `true`; an omitted `file` argument is
`undefined`, which the `!file` guard treats exactly like the empty string
(the only use of `file` that precedes every other. -/
def uploadJS (s : Store) (inj : Option AxiosErr) (file : Option JStr)
    (filepath filename : Option JStr) (overwrite : Option Bool) : UploadEff :=
  upload s inj (file.getD []) (filepath.getD (js ""))
    (filename.getD (js "uploaded_file.txt")) (overwrite.getD true)

mutual
/-- A node of the remote tree under the traversed root: a leaf file (with
its sha, its `download_url` and the raw bytes served at that url) or a
directory with children. The GitHub tree is acyclic and each path addresses
one node, so the source's path-indexed GET of a directory listing is
embedded as structural descent into this tree. -/
inductive RNode where
  | file (name sha url raw : JStr)
  | dir (name : JStr) (children : RForest)
/-- A directory listing: the sequence of child nodes, in the order the
listing call returns them. -/
inductive RForest where
  | nil
  | cons (n : RNode) (rest : RForest)
end

/-- Build a forest from a list of nodes, for writing concrete trees. -/
def forestOf : List RNode → RForest
  | [] => .nil
  | n :: rest => .cons n (forestOf rest)

/-- The `path` field the listing response gives a child of the directory at
`p`: the name itself at the repository root, `p` slash name below it. -/
def childPath (p name : JStr) : JStr :=
  if p.isEmpty then name else p ++ ('/' :: name)

/-- A file descriptor as `listAllFiles` pushes it (lines 140-146):
name, path, type, sha and download url of a leaf file. -/
structure FileRec where
  name : JStr
  path : JStr
  type : JStr
  sha : JStr
  url : Option JStr
deriving DecidableEq, Repr

/-- The descriptor `listAllFiles` pushes for the leaf `name` under `p`. -/
def fileRecOf (p name sha url : JStr) : FileRec :=
  ⟨name, childPath p name, js "file", sha, some url⟩

/-- Embeds the inner `getFilesInDirectory` of `listAllFiles`
(lines 131-149): iterate the listing of the directory at `p` in order,
recursing into each child directory (the recursion keeps `this` via
`.call(this)`) and pushing each file onto the shared accumulator `acc`. -/
def listAllGo : RForest → JStr → List FileRec → List FileRec
  | .nil, _, acc => acc
  | .cons (.dir name ch) rest, p, acc =>
    listAllGo rest p (listAllGo ch (childPath p name) acc)
  | .cons (.file name sha url _) rest, p, acc =>
    listAllGo rest p (acc ++ [fileRecOf p name sha url])

/-- The object `listAllFiles` resolves with (line 152). -/
structure ListAllResult where
  message : JStr
  files : List FileRec
deriving DecidableEq, Repr

/-- Embeds `listAllFiles` (lines 129-153) on the tree rooted at
`filepath`, whose listing is `root`. -/
def listAllFiles (filepath : JStr) (root : RForest) : ListAllResult :=
  ⟨js "Files retrieved successfully!", listAllGo root filepath []⟩

/-- The leaf files of the tree in depth-first traversal order, written as
the spec words it: list the immediate children; for a directory child
recurse and splice the result in place; for a file child emit its
descriptor. Used as the specification side of the refinement for
`listAllFiles`. -/
def specLeaves : RForest → JStr → List FileRec
  | .nil, _ => []
  | .cons (.file name sha url _) rest, p => fileRecOf p name sha url :: specLeaves rest p
  | .cons (.dir name ch) rest, p => specLeaves ch (childPath p name) ++ specLeaves rest p

/-- The record `listFilesInDirectory` pushes for a leaf (lines 243-247):
name, path and download url. -/
structure DlRec where
  name : JStr
  path : JStr
  url : JStr
deriving DecidableEq, Repr

/-- Embeds the recursive call `await getFiles(item.path)` of
`listFilesInDirectory` (line 241). The call has no receiver: the class body
is strict-mode code, so inside it `this` is `undefined` and the very first
expression `this.apiUrl` of `getFiles` throws a TypeError before any
request or push happens, whatever the arguments were. -/
def getFilesNoThis (_acc : List DlRec) (_p : JStr) (_ns : RForest) :
    Except Unit (List DlRec) := .error ()

/-- Embeds the body of `getFiles` in `listFilesInDirectory` when `this` is
bound (only the entry call `getFiles.call(this, filepath)` binds it,
line 252): iterate the listing at `p`, recursing into directories through
the receiverless call and pushing files onto the shared accumulator. -/
def getFilesLoop : RForest → JStr → List DlRec → Except Unit (List DlRec)
  | .nil, _, acc => .ok acc
  | .cons (.dir name ch) rest, p, acc =>
    match getFilesNoThis acc (childPath p name) ch with
    | .error e => .error e
    | .ok acc2 => getFilesLoop rest p acc2
  | .cons (.file name _ url _) rest, p, acc =>
    getFilesLoop rest p (acc ++ [⟨name, childPath p name, url⟩])

/-- Embeds `listFilesInDirectory` (lines 231-254) on the tree rooted at
`filepath` whose listing is `root`. An `error` is the TypeError thrown when
the receiverless recursion touches `this.apiUrl`. -/
def listFilesInDirectory (filepath : JStr) (root : RForest) :
    Except Unit (List DlRec) :=
  getFilesLoop root filepath []

/-- JS truthiness of an optional string field: absent (`undefined`) and the
empty string are both falsy; the value survives only when nonempty. -/
def jsTruthyOpt (o : Option JStr) : Option JStr :=
  match o with
  | some s => if s.isEmpty then none else some s
  | none => none

/-- What `download` resolves with: `{data}` carrying the base64 content, or
`{url}` carrying the direct download url. -/
inductive DownRes where
  | dataRes (d : JStr)
  | urlRes (u : JStr)
deriving DecidableEq, Repr

/-- The error outcomes of `download`: the arguments guard (line 190), an
axios failure wrapped as `Error downloading file:` (line 221), or the
`File content or download URL not found` data-integrity throw (line 219,
itself re-wrapped by the same catch). -/
inductive DownErr where
  | bothRequired
  | wrapped (e : AxiosErr)
  | integrity
deriving DecidableEq, Repr

/-- Embeds `download` (GitHubFileStorage.js lines 189-223) against store
`s`: fetch the metadata at `filepath/filename`, return the inline content
when truthy, else the download url when truthy, else the data-integrity
error. -/
def download (s : Store) (filepath filename : JStr) : Except DownErr DownRes :=
  if filepath.isEmpty || filename.isEmpty then .error .bothRequired
  else
    match storeGet s (uploadUrl filepath filename) with
    | .error e => .error (.wrapped e)
    | .ok f =>
      match jsTruthyOpt f.content with
      | some c => .ok (.dataRes c)
      | none =>
        match jsTruthyOpt f.download_url with
        | some u => .ok (.urlRes u)
        | none => .error .integrity

/-- The error outcomes of `deleteFile`: the arguments guard (line 320) and
any axios failure wrapped as `Error deleting file:` (line 355), the wrap
preserving the underlying cause. -/
inductive DelErr where
  | bothRequired
  | wrapped (e : AxiosErr)
deriving DecidableEq, Repr

/-- One run of `deleteFile` observed in full: its result (the success
message), the final store and the DELETE requests issued, each carrying the
url path and the sha revision sent as precondition. -/
structure DeleteEff where
  result : Except DelErr JStr
  store : Store
  deletes : List (JStr × JStr)
deriving DecidableEq, Repr

/-- Embeds `deleteFile` (GitHubFileStorage.js lines 319-357) against store
`s`: fetch the metadata first to obtain the current sha, then issue the
DELETE carrying that sha; any failure of either call is wrapped by the
single catch block. -/
def deleteFile (s : Store) (filepath filename : JStr) : DeleteEff :=
  if filepath.isEmpty || filename.isEmpty then ⟨.error .bothRequired, s, []⟩
  else
    let filePath := uploadUrl filepath filename
    match storeGet s filePath with
    | .error e => ⟨.error (.wrapped e), s, []⟩
    | .ok f =>
      match storeDelete s filePath f.sha with
      | .error e => ⟨.error (.wrapped e), s, [(filePath, f.sha)]⟩
      | .ok s2 => ⟨.ok (js "File deleted successfully!"), s2, [(filePath, f.sha)]⟩

/-- Split a path into its slash-separated segments (helper for the model of
`mkdirSync` with `recursive: true`). -/
def splitSegsAux (cur : JStr) : JStr → List JStr
  | [] => [cur.reverse]
  | c :: t => if c = '/' then cur.reverse :: splitSegsAux [] t else splitSegsAux (c :: cur) t

/-- The slash-separated segments of a path. -/
def splitSegs (p : JStr) : List JStr := splitSegsAux [] p

/-- The nonempty segment-list prefixes of a segment list, shortest first. -/
def segTakes : List JStr → List (List JStr)
  | [] => []
  | s :: rest => [s] :: (segTakes rest).map (fun pr => s :: pr)

/-- Join segments back into a path with slashes. -/
def joinSegs : List JStr → JStr
  | [] => []
  | [s] => s
  | s :: rest => s ++ '/' :: joinSegs rest

/-- The directory `p` together with all its ancestors, the directories that
`mkdirSync(p, recursive)` guarantees to exist afterwards. -/
def dirChain (p : JStr) : List JStr := (segTakes (splitSegs p)).map joinSegs

/-- Model of `mkdirSync(p, recursive: true)`: the directory and every
ancestor are added to the set of existing directories. -/
def mkdirRec (dirs : List JStr) (p : JStr) : List JStr := dirChain p ++ dirs

/-- Model of Node `path.join(p)` on an already normalized path: the empty
path becomes the current directory, anything else is unchanged. -/
def pathJoinSingle (p : JStr) : JStr := if p.isEmpty then js "." else p

/-- Model of Node `path.join(a, b)` on already normalized arguments. -/
def pathJoin (a b : JStr) : JStr :=
  if a.isEmpty then b else if a = js "." then b else a ++ ('/' :: b)

/-- One entry of the produced archive: the stored name (the file's `name`
field, line 289) and the raw bytes appended for it. -/
structure ZipEntry where
  name : JStr
  data : JStr
deriving DecidableEq, Repr

/-- The local filesystem visible to `downloadAll`: the set of existing
directories and the written files; a written archive is recorded as its
entry list ( `[]` for a stream opened but not successfully finalized). -/
structure FS where
  dirs : List JStr
  files : List (JStr × List ZipEntry)
deriving DecidableEq, Repr

/-- Write (create or overwrite) the file at `p`. -/
def setFile (fs : List (JStr × List ZipEntry)) (p : JStr) (v : List ZipEntry) :
    List (JStr × List ZipEntry) :=
  match fs with
  | [] => [(p, v)]
  | (q, w) :: rest => if q = p then (p, v) :: rest else (q, w) :: setFile rest p v

/-- Read the file at `p`. -/
def getFile (fs : List (JStr × List ZipEntry)) (p : JStr) : Option (List ZipEntry) :=
  match fs with
  | [] => none
  | (q, w) :: rest => if q = p then some w else getFile rest p

/-- Embeds the download loop of `downloadAll` (lines 282-290): fetch each
listed file's url in order and append the bytes under the file's name; the
first failing fetch throws out of the loop. `fetchBin` is the binary GET
against a url (an external collaborator call). -/
def fetchEntries (fetchBin : JStr → Except Unit JStr) :
    List DlRec → Except Unit (List ZipEntry)
  | [] => .ok []
  | f :: rest =>
    match fetchBin f.url with
    | .error e => .error e
    | .ok bytes =>
      match fetchEntries fetchBin rest with
      | .error e => .error e
      | .ok es => .ok (⟨f.name, bytes⟩ :: es)

/-- Embeds the promise wiring of `downloadAll` (lines 295-305): `resolve`
is registered on the sink's `close` event and nowhere else, so the promise
holds the zip path once `close` has fired and nothing before. -/
def daPromise (zipFilePath : JStr) (closeFired : Bool) : Option JStr :=
  if closeFired then some zipFilePath else none

/-- What a successful `downloadAll` produces: the zip path it resolves
with, the entries of the finalized archive, and the resolution function of
the returned promise as a function of whether the sink's `close` event has
fired. -/
structure DAOk where
  zipFilePath : JStr
  entries : List ZipEntry
  resolved : Bool → Option JStr

/-- Embeds `downloadAll` (GitHubFileStorage.js lines 263-310) on the tree
rooted at `filepath` with local filesystem `fs`: list the folder through
`listFilesInDirectory`, ensure the storage directory exists, open the
stream at `storagePath/output.zip` (truncating any previous file there),
fetch and append every file, finalize, and resolve with the zip path on the
sink's `close` event. Any error makes the call reject instead (the catch
wraps it as `Error downloading files:`). Returns the outcome and the final
filesystem. -/
def downloadAll (fetchBin : JStr → Except Unit JStr) (root : RForest)
    (filepath storagePath : JStr) (fs : FS) : Except Unit DAOk × FS :=
  match listFilesInDirectory filepath root with
  | .error e => (.error e, fs)
  | .ok files =>
    let fullStoragePath := pathJoinSingle storagePath
    let dirs1 := if fullStoragePath ∈ fs.dirs then fs.dirs else mkdirRec fs.dirs fullStoragePath
    let zipFilePath := pathJoin fullStoragePath (js "output.zip")
    let files1 := setFile fs.files zipFilePath []
    match fetchEntries fetchBin files with
    | .error e => (.error e, ⟨dirs1, files1⟩)
    | .ok entries =>
      (.ok ⟨zipFilePath, entries, daPromise zipFilePath⟩,
        ⟨dirs1, setFile files1 zipFilePath entries⟩)

/-- The `name` field of a tree node. -/
def nodeName : RNode → JStr
  | .file name _ _ _ => name
  | .dir name _ => name

/-- The names of the siblings of one listing, in order. -/
def forestNames : RForest → List JStr
  | .nil => []
  | .cons n rest => nodeName n :: forestNames rest

/-- A valid entry name in the remote store: nonempty and free of slashes
(GitHub path segments cannot contain a slash). -/
def goodName (n : JStr) : Bool := !n.isEmpty && !(decide ('/' ∈ n))

/-- Wellformedness of a remote tree, as GitHub guarantees it: every name is
valid, siblings of one directory have pairwise distinct names, and the
subtrees are wellformed. -/
def wfForest : RForest → Bool
  | .nil => true
  | .cons n rest =>
    goodName (nodeName n) &&
    (match n with
     | .dir _ ch => wfForest ch
     | .file _ _ _ _ => true) &&
    !(decide (nodeName n ∈ forestNames rest)) &&
    wfForest rest

/-- The paths of the tree's leaf files relative to the root, in depth-first
order. -/
def relPaths : RForest → List JStr
  | .nil => []
  | .cons (.file name _ _ _) rest => name :: relPaths rest
  | .cons (.dir name ch) rest =>
    (relPaths ch).map (fun r => name ++ '/' :: r) ++ relPaths rest

/-- A concrete store used by the witnesses: one file at `docs/a.txt`. -/
def demoFile : RemoteFile := ⟨js "s0", some (js "QQ=="), none⟩

/-- The witnesses' store contents. -/
def demoStore : Store := [(js "docs/a.txt", demoFile)]

/-- The two-file tree of the spec's concrete scenario: `a.txt` at the top of
`docs` and `b.txt` inside the subdirectory `sub`. -/
def docsForest : RForest :=
  forestOf [.file (js "a.txt") (js "sha-a") (js "ra") (js "hello"),
    .dir (js "sub") (forestOf [.file (js "b.txt") (js "sha-b") (js "rb") (js "world")])]

/-- The binary fetch of the witnesses' trees: serves `hello` at url `ra`
and `world` at url `rb`. -/
def docsFetch : JStr → Except Unit JStr := fun u =>
  if u = js "ra" then .ok (js "hello")
  else if u = js "rb" then .ok (js "world")
  else .error ()

/-- A flat one-file folder: `a.txt` alone under `docs`. -/
def flatA : RForest := forestOf [.file (js "a.txt") (js "sha-a") (js "ra") (js "hello")]

/-- A binary fetch that fails on every url. -/
def failFetch : JStr → Except Unit JStr := fun _ => .error ()

theorem isEmpty_false_iff (l : JStr) : l.isEmpty = false ↔ l ≠ [] := by
  cases l <;> simp

theorem goodName_spec (n : JStr) (h : goodName n = true) : n ≠ [] ∧ '/' ∉ n := by
  simp only [goodName, Bool.and_eq_true, Bool.not_eq_true', isEmpty_false_iff,
    decide_eq_false_iff_not] at h
  exact h

theorem wf_file_cons (name sha url raw : JStr) (rest : RForest)
    (h : wfForest (.cons (.file name sha url raw) rest) = true) :
    goodName name = true ∧ name ∉ forestNames rest ∧ wfForest rest = true := by
  simp only [wfForest, nodeName, Bool.and_eq_true, Bool.not_eq_true',
    decide_eq_false_iff_not] at h
  exact ⟨h.1.1.1, h.1.2, h.2⟩

theorem wf_dir_cons (name : JStr) (ch rest : RForest)
    (h : wfForest (.cons (.dir name ch) rest) = true) :
    goodName name = true ∧ wfForest ch = true ∧ name ∉ forestNames rest ∧
      wfForest rest = true := by
  simp only [wfForest, nodeName, Bool.and_eq_true, Bool.not_eq_true',
    decide_eq_false_iff_not] at h
  exact ⟨h.1.1.1, h.1.1.2, h.1.2, h.2⟩

/-- The accumulator-passing traversal of `listAllFiles` appends the
depth-first leaf sequence to the accumulated array. -/
theorem listAllGo_eq : (ns : RForest) → (p : JStr) → (acc : List FileRec) →
    listAllGo ns p acc = acc ++ specLeaves ns p
  | .nil, p, acc => by simp [listAllGo, specLeaves]
  | .cons (.file name sha url raw) rest, p, acc => by
    rw [listAllGo, specLeaves, listAllGo_eq rest]
    simp
  | .cons (.dir name ch) rest, p, acc => by
    rw [listAllGo, specLeaves, listAllGo_eq rest, listAllGo_eq ch]
    simp

/-- Every descriptor the traversal emits is a leaf file, never a directory. -/
theorem specLeaves_type : (ns : RForest) → (p : JStr) →
    ∀ r ∈ specLeaves ns p, r.type = js "file"
  | .nil, _ => by simp [specLeaves]
  | .cons (.file name sha url raw) rest, p => by
    intro r hr
    rw [specLeaves] at hr
    rcases List.mem_cons.mp hr with h | h
    · rw [h]; rfl
    · exact specLeaves_type rest p r h
  | .cons (.dir name ch) rest, p => by
    intro r hr
    rw [specLeaves] at hr
    rcases List.mem_append.mp hr with h | h
    · exact specLeaves_type ch _ r h
    · exact specLeaves_type rest p r h

theorem childPath_cascade (p name r : JStr) (h : name ≠ []) :
    childPath (childPath p name) r = childPath p (name ++ '/' :: r) := by
  cases p with
  | nil =>
    cases name with
    | nil => exact absurd rfl h
    | cons c t => simp [childPath]
  | cons c t => simp [childPath]

/-- The leaf paths emitted under root `p` are the relative leaf paths
prefixed with `p`. -/
theorem specLeaves_paths : (ns : RForest) → (p : JStr) → wfForest ns = true →
    (specLeaves ns p).map FileRec.path = (relPaths ns).map (childPath p)
  | .nil, _, _ => by simp [specLeaves, relPaths]
  | .cons (.file name sha url raw) rest, p, h => by
    obtain ⟨h1, h2, h3⟩ := wf_file_cons name sha url raw rest h
    rw [specLeaves, relPaths]
    simp only [List.map_cons, specLeaves_paths rest p h3]
    rfl
  | .cons (.dir name ch) rest, p, h => by
    obtain ⟨h1, h2, h3, h4⟩ := wf_dir_cons name ch rest h
    rw [specLeaves, relPaths]
    rw [List.map_append, List.map_append, List.map_map,
      specLeaves_paths ch (childPath p name) h2, specLeaves_paths rest p h4]
    congr 1
    refine List.map_congr_left fun r _ => ?_
    exact childPath_cascade p name r (goodName_spec name h1).1

theorem slash_split_inj : (a : JStr) → (b : JStr) → ∀ x y, '/' ∉ a → '/' ∉ b →
    a ++ '/' :: x = b ++ '/' :: y → a = b ∧ x = y
  | [], [], x, y, _, _, h => by simpa using h
  | [], c :: b', x, y, ha, hb, h => by
    simp only [List.nil_append, List.cons_append, List.cons.injEq] at h
    exact absurd (h.1 ▸ List.mem_cons_self c b') hb
  | c :: a', [], x, y, ha, hb, h => by
    simp only [List.nil_append, List.cons_append, List.cons.injEq] at h
    exact absurd (h.1 ▸ List.mem_cons_self c a') ha
  | c :: a', d :: b', x, y, ha, hb, h => by
    simp only [List.cons_append, List.cons.injEq] at h
    obtain ⟨hcd, htail⟩ := h
    have := slash_split_inj a' b' x y (fun hm => ha (List.mem_cons_of_mem c hm))
      (fun hm => hb (List.mem_cons_of_mem d hm)) htail
    exact ⟨by rw [hcd, this.1], this.2⟩

/-- Every relative leaf path of a wellformed tree starts with the name of
the top-level sibling it descends from: it is that name itself (a leaf) or
the name followed by a slash (inside a subdirectory). -/
theorem relPaths_shape : (ns : RForest) → wfForest ns = true → ∀ l ∈ relPaths ns,
    ∃ n, n ∈ forestNames ns ∧ goodName n = true ∧ (l = n ∨ ∃ r, l = n ++ '/' :: r)
  | .nil, _ => by simp [relPaths]
  | .cons (.file name sha url raw) rest, h => by
    obtain ⟨h1, h2, h3⟩ := wf_file_cons name sha url raw rest h
    intro l hl
    rw [relPaths] at hl
    rcases List.mem_cons.mp hl with he | he
    · exact ⟨name, List.mem_cons_self .., h1, Or.inl he⟩
    · obtain ⟨n, hn1, hn2, hn3⟩ := relPaths_shape rest h3 l he
      exact ⟨n, List.mem_cons_of_mem _ hn1, hn2, hn3⟩
  | .cons (.dir name ch) rest, h => by
    obtain ⟨h1, h2, h3, h4⟩ := wf_dir_cons name ch rest h
    intro l hl
    rw [relPaths] at hl
    rcases List.mem_append.mp hl with he | he
    · obtain ⟨r, _, hr⟩ := List.mem_map.mp he
      exact ⟨name, List.mem_cons_self .., h1, Or.inr ⟨r, hr.symm⟩⟩
    · obtain ⟨n, hn1, hn2, hn3⟩ := relPaths_shape rest h4 l he
      exact ⟨n, List.mem_cons_of_mem _ hn1, hn2, hn3⟩

/-- The relative leaf paths of a wellformed tree are pairwise distinct. -/
theorem relPaths_nodup : (ns : RForest) → wfForest ns = true → (relPaths ns).Nodup
  | .nil, _ => by simp [relPaths]
  | .cons (.file name sha url raw) rest, h => by
    obtain ⟨h1, h2, h3⟩ := wf_file_cons name sha url raw rest h
    rw [relPaths]
    refine List.nodup_cons.mpr ⟨fun hmem => ?_, relPaths_nodup rest h3⟩
    obtain ⟨n, hn1, hn2, hn3⟩ := relPaths_shape rest h3 name hmem
    rcases hn3 with he | ⟨r, he⟩
    · exact h2 (he ▸ hn1)
    · exact (goodName_spec name h1).2 (he ▸ List.mem_append_right n (List.mem_cons_self ..))
  | .cons (.dir name ch) rest, h => by
    obtain ⟨h1, h2, h3, h4⟩ := wf_dir_cons name ch rest h
    rw [relPaths]
    rw [List.nodup_append]
    refine ⟨List.Nodup.map ?_ (relPaths_nodup ch h2), relPaths_nodup rest h4, ?_⟩
    · intro r1 r2 hr
      simpa using hr
    · intro l hl hl2
      obtain ⟨r, _, hr⟩ := List.mem_map.mp hl
      obtain ⟨n, hn1, hn2, hn3⟩ := relPaths_shape rest h4 l hl2
      rcases hn3 with he | ⟨r', he⟩
      · exact (goodName_spec n hn2).2 ((he ▸ hr) ▸ List.mem_append_right name
          (List.mem_cons_self ..))
      · have heq : name ++ '/' :: r = n ++ '/' :: r' := by rw [hr, he]
        have := slash_split_inj name n r r' (goodName_spec name h1).2
          (goodName_spec n hn2).2 heq
        exact h3 (this.1 ▸ hn1)

theorem childPath_inj (p : JStr) : Function.Injective (childPath p) := by
  intro a b h
  unfold childPath at h
  by_cases hp : p.isEmpty
  · simpa [hp] using h
  · simpa [hp] using h

/-- On the empty store, `upload` reaches the PUT with no sha captured: the
existence GET yields a 404 response, which the catch block swallows. -/
theorem upload_empty_store (file filepath filename : JStr) (hne : file ≠ []) :
    upload [] none file filepath filename true =
      uploadAfterCheck [] (uploadUrl filepath filename)
        (normalizeContent file) true none 1 := by
  unfold upload
  rw [if_neg (by simp [(isEmpty_false_iff file).mpr hne])]
  rfl

/-- A file whose retrieval fails makes the whole download loop fail. -/
theorem fetchEntries_error (fetchBin : JStr → Except Unit JStr) :
    (files : List DlRec) → (∃ f ∈ files, fetchBin f.url = .error ()) →
    fetchEntries fetchBin files = .error ()
  | [], h => by simp at h
  | f0 :: rest, h => by
    rw [fetchEntries]
    cases hf : fetchBin f0.url with
    | error e => rfl
    | ok bytes =>
      have hrest : ∃ f ∈ rest, fetchBin f.url = .error () := by
        rcases h with ⟨f, hf1, hf2⟩
        rcases List.mem_cons.mp hf1 with he | he
        · rw [he, hf] at hf2
          exact absurd hf2 (by simp)
        · exact ⟨f, he, hf2⟩
      rw [fetchEntries_error fetchBin rest hrest]

theorem getFile_setFile : (fs : List (JStr × List ZipEntry)) → (p : JStr) →
    (v : List ZipEntry) → getFile (setFile fs p v) p = some v
  | [], p, v => by simp [setFile, getFile]
  | (q, w) :: rest, p, v => by
    rw [setFile]
    by_cases h : q = p
    · rw [if_pos h, getFile, if_pos rfl]
    · rw [if_neg h, getFile, if_neg h, getFile_setFile rest p v]

theorem joinSegs_cons (s : JStr) (r : List JStr) (h : r ≠ []) :
    joinSegs (s :: r) = s ++ '/' :: joinSegs r := by
  cases r with
  | nil => exact absurd rfl h
  | cons a t => rfl

theorem splitSegsAux_ne_nil : (t : JStr) → (cur : JStr) → splitSegsAux cur t ≠ []
  | [], cur => by simp [splitSegsAux]
  | c :: t', cur => by
    rw [splitSegsAux]
    split
    · simp
    · exact splitSegsAux_ne_nil t' (c :: cur)

theorem joinSegs_splitSegsAux : (t : JStr) → (cur : JStr) →
    joinSegs (splitSegsAux cur t) = cur.reverse ++ t
  | [], cur => by simp [splitSegsAux, joinSegs]
  | c :: t', cur => by
    rw [splitSegsAux]
    by_cases hc : c = '/'
    · rw [if_pos hc, joinSegs_cons _ _ (splitSegsAux_ne_nil t' []),
        joinSegs_splitSegsAux t' []]
      simp [hc]
    · rw [if_neg hc, joinSegs_splitSegsAux t' (c :: cur)]
      simp

theorem segTakes_self : (l : List JStr) → l ≠ [] → l ∈ segTakes l
  | [], h => absurd rfl h
  | [s], _ => by simp [segTakes]
  | s :: a :: t, _ => by
    rw [segTakes]
    exact List.mem_cons_of_mem _
      (List.mem_map.mpr ⟨a :: t, segTakes_self (a :: t) (by simp), rfl⟩)

/-- The directory itself is among the directories `mkdirSync(p, recursive)`
creates. -/
theorem mem_dirChain_self (p : JStr) : p ∈ dirChain p := by
  unfold dirChain
  refine List.mem_map.mpr ⟨splitSegs p, segTakes_self _ (splitSegsAux_ne_nil p []), ?_⟩
  simpa [splitSegs] using joinSegs_splitSegsAux p []

/-- C2: the claim says every existence-check failure other than not-found —
including a network/transport failure — propagates as a fatal error and does
not lead to create semantics. The code's catch guard is
`error.response && error.response.status !== 404`: a transport failure has no
`error.response`, so the guard is false, the error is swallowed, `sha` stays
null and the call proceeds as a creation, contradicting the claim and the
code's own comment `Other errors (not 404) should be thrown`. This theorem
evaluates the embedded code on that failing input — the upload succeeds as a
creation and issues a PUT — and, for contrast, shows a non-404 error response
is indeed rethrown with no PUT issued. -/
theorem C2_upload_transport_swallowed :
    upload [] (some .noResp) (js "QQ==") (js "docs") (js "a.txt") true =
      ⟨.ok ⟨js "File uploaded successfully!", some (freshFile 'n' (js "QQ=="))⟩,
        [(js "docs/a.txt", freshFile 'n' (js "QQ=="))], 1,
        [(js "docs/a.txt", js "QQ==", none)]⟩ ∧
    upload [] (some (.respErr 403)) (js "QQ==") (js "docs") (js "a.txt") true =
      ⟨.error (.rethrown (.respErr 403)), [], 1, []⟩ :=
  ⟨by decide, by decide⟩

/-- C4: when a file already exists at the path (with the truthy sha every
real store revision has) and `upload` is called with overwrite rejected, the
call returns the skipped-exists outcome, issues no PUT, and leaves the store —
including the revision at that path — exactly unchanged. -/
theorem C4_upload_reject_frame (s : Store) (file filepath filename : JStr)
    (f : RemoteFile) (hfile : file ≠ [])
    (hf : storeLookup s (uploadUrl filepath filename) = some f)
    (hsha : f.sha ≠ []) :
    upload s none file filepath filename false =
      ⟨.ok ⟨js "File already exists!", none⟩, s, 1, []⟩ := by
  unfold upload
  rw [if_neg (by simp [(isEmpty_false_iff file).mpr hfile])]
  simp only [storeGet, hf]
  unfold uploadAfterCheck shaTruthy
  rw [if_neg (by simp [(isEmpty_false_iff f.sha).mpr hsha])]
  rfl

theorem C4_witness :
    ((js "x" : JStr) ≠ [] ∧
      storeLookup demoStore (uploadUrl (js "docs") (js "a.txt")) = some demoFile ∧
      demoFile.sha ≠ []) ∧
    upload demoStore none (js "x") (js "docs") (js "a.txt") false =
      ⟨.ok ⟨js "File already exists!", none⟩, demoStore, 1, []⟩ :=
  ⟨⟨by decide, by decide, by decide⟩,
    C4_upload_reject_frame demoStore (js "x") (js "docs") (js "a.txt") demoFile
      (by decide) (by decide) (by decide)⟩

/-- C5: a payload carrying the transport envelope (it starts with `data:` and
the base64 marker occurs at index k) is stripped of everything up to and
including the marker before transmission, and uploading it has exactly the
same effect — same transmitted PUT content, same resulting store — as
uploading the already-stripped encoded payload (nonempty, and itself free of
the envelope marker, as a base64 payload always is) directly. -/
theorem C5_upload_envelope_strip (file filepath filename : JStr) (k : Nat)
    (h1 : (js "data:").isPrefixOf file = true)
    (h2 : findSubIdx (js "base64,") file = some k)
    (h3 : (js "data:").isPrefixOf (file.drop (k + 7)) = false)
    (h4 : file.drop (k + 7) ≠ []) :
    normalizeContent file = file.drop (k + 7) ∧
    upload [] none file filepath filename true =
      upload [] none (file.drop (k + 7)) filepath filename true := by
  have hne : file ≠ [] := by
    intro he
    rw [he] at h1
    exact absurd h1 (by decide)
  have hnorm : normalizeContent file = file.drop (k + 7) := by
    have ht : ((k : Int) + 7).toNat = k + 7 := by omega
    unfold normalizeContent jsIndexOf
    rw [if_pos h1, h2, ht]
  have hnorm2 : normalizeContent (file.drop (k + 7)) = file.drop (k + 7) := by
    unfold normalizeContent
    rw [h3]
    simp
  refine ⟨hnorm, ?_⟩
  rw [upload_empty_store file filepath filename hne,
    upload_empty_store (file.drop (k + 7)) filepath filename h4, hnorm, hnorm2]

theorem C5_witness :
    ((js "data:").isPrefixOf (js "data:text/plain;base64,aGVsbG8=") = true ∧
      findSubIdx (js "base64,") (js "data:text/plain;base64,aGVsbG8=") = some 16 ∧
      (js "data:").isPrefixOf ((js "data:text/plain;base64,aGVsbG8=").drop (16 + 7)) = false ∧
      (js "data:text/plain;base64,aGVsbG8=").drop (16 + 7) ≠ []) ∧
    (normalizeContent (js "data:text/plain;base64,aGVsbG8=") =
        (js "data:text/plain;base64,aGVsbG8=").drop (16 + 7) ∧
      upload [] none (js "data:text/plain;base64,aGVsbG8=") (js "docs") (js "a.txt") true =
        upload [] none ((js "data:text/plain;base64,aGVsbG8=").drop (16 + 7))
          (js "docs") (js "a.txt") true) :=
  ⟨⟨by decide, by decide, by decide, by decide⟩,
    C5_upload_envelope_strip (js "data:text/plain;base64,aGVsbG8=") (js "docs")
      (js "a.txt") 16 (by decide) (by decide) (by decide) (by decide)⟩

/-- C9: at the public interface, an omitted filepath defaults to the root
path, an omitted filename to `uploaded_file.txt`, an omitted overwrite flag
to allow; an omitted (`undefined`) or empty content argument makes `upload`
throw `File is required` with zero remote calls issued (no GET, no PUT). -/
theorem C9_upload_defaults (s : Store) (inj : Option AxiosErr) (file : JStr)
    (fp fn : Option JStr) (ow : Option Bool) (fp2 fn2 : JStr) (ow2 : Bool) :
    uploadJS s inj (some file) none none none =
      upload s inj file (js "") (js "uploaded_file.txt") true ∧
    uploadJS s inj none fp fn ow = ⟨.error .fileRequired, s, 0, []⟩ ∧
    upload s inj [] fp2 fn2 ow2 = ⟨.error .fileRequired, s, 0, []⟩ :=
  ⟨rfl, rfl, rfl⟩

/-- C3: on every wellformed tree of any depth, `listAllFiles` returns exactly
the depth-first sequence of leaf files reachable from the root path — equal to
the spec-side depth-first enumeration (hence sibling order is the listing
order), with no directory entries and no duplicates. -/
theorem C3_listAllFiles_dfs (p : JStr) (ns : RForest) (h : wfForest ns = true) :
    (listAllFiles p ns).files = specLeaves ns p ∧
    (∀ r ∈ (listAllFiles p ns).files, r.type = js "file") ∧
    (listAllFiles p ns).files.Nodup := by
  have heq : (listAllFiles p ns).files = specLeaves ns p := by
    unfold listAllFiles
    simpa using listAllGo_eq ns p []
  refine ⟨heq, ?_, ?_⟩
  · rw [heq]
    exact specLeaves_type ns p
  · rw [heq]
    have hnodup : ((specLeaves ns p).map FileRec.path).Nodup := by
      rw [specLeaves_paths ns p h]
      exact (relPaths_nodup ns h).map (childPath_inj p)
    exact hnodup.of_map

theorem C3_witness :
    wfForest docsForest = true ∧
    ((listAllFiles (js "docs") docsForest).files = specLeaves docsForest (js "docs") ∧
      (∀ r ∈ (listAllFiles (js "docs") docsForest).files, r.type = js "file") ∧
      (listAllFiles (js "docs") docsForest).files.Nodup) :=
  ⟨by decide, C3_listAllFiles_dfs (js "docs") docsForest (by decide)⟩

/-- C6: `deleteFile` fetches the current revision first; on a path that was
never created the metadata GET fails with the distinguished 404 condition and
the call fails with that NotFound-derived failure — no DELETE is ever issued,
so in particular the failure is not a revision-precondition conflict; on an
existing path the DELETE request carries exactly the freshly fetched
revision as its precondition. -/
theorem C6_deleteFile_revision (s : Store) (filepath filename : JStr)
    (h1 : filepath ≠ []) (h2 : filename ≠ []) :
    (storeLookup s (uploadUrl filepath filename) = none →
      deleteFile s filepath filename = ⟨.error (.wrapped (.respErr 404)), s, []⟩) ∧
    (∀ f, storeLookup s (uploadUrl filepath filename) = some f →
      (deleteFile s filepath filename).deletes = [(uploadUrl filepath filename, f.sha)]) := by
  have hg : (filepath.isEmpty || filename.isEmpty) = false := by
    simp [(isEmpty_false_iff filepath).mpr h1, (isEmpty_false_iff filename).mpr h2]
  constructor
  · intro hnone
    unfold deleteFile
    rw [if_neg (by simp [hg])]
    simp only [storeGet, hnone]
  · intro f hf
    unfold deleteFile
    rw [if_neg (by simp [hg])]
    simp only [storeGet, hf]
    cases hd : storeDelete s (uploadUrl filepath filename) f.sha with
    | error e => simp [hd]
    | ok s2 => simp [hd]

theorem C6_witness :
    ((js "docs" : JStr) ≠ [] ∧ (js "a.txt" : JStr) ≠ []) ∧
    ((storeLookup demoStore (uploadUrl (js "docs") (js "a.txt")) = none →
        deleteFile demoStore (js "docs") (js "a.txt") =
          ⟨.error (.wrapped (.respErr 404)), demoStore, []⟩) ∧
      (∀ f, storeLookup demoStore (uploadUrl (js "docs") (js "a.txt")) = some f →
        (deleteFile demoStore (js "docs") (js "a.txt")).deletes =
          [(uploadUrl (js "docs") (js "a.txt"), f.sha)])) :=
  ⟨⟨by decide, by decide⟩,
    C6_deleteFile_revision demoStore (js "docs") (js "a.txt") (by decide) (by decide)⟩

/-- C7: `download` returns the inline encoded content whenever it is present
(truthy), falls back to the direct retrieval URL exactly when the encoded
content is absent, and when neither is present fails with the data-integrity
error for that single file. -/
theorem C7_download_fallback (s : Store) (filepath filename : JStr) (f : RemoteFile)
    (h1 : filepath ≠ []) (h2 : filename ≠ [])
    (hf : storeLookup s (uploadUrl filepath filename) = some f) :
    (∀ c, jsTruthyOpt f.content = some c →
      download s filepath filename = .ok (.dataRes c)) ∧
    (jsTruthyOpt f.content = none → ∀ u, jsTruthyOpt f.download_url = some u →
      download s filepath filename = .ok (.urlRes u)) ∧
    (jsTruthyOpt f.content = none → jsTruthyOpt f.download_url = none →
      download s filepath filename = .error .integrity) := by
  have hg : (filepath.isEmpty || filename.isEmpty) = false := by
    simp [(isEmpty_false_iff filepath).mpr h1, (isEmpty_false_iff filename).mpr h2]
  refine ⟨?_, ?_, ?_⟩
  · intro c hc
    unfold download
    rw [if_neg (by simp [hg])]
    simp only [storeGet, hf, hc]
  · intro hc u hu
    unfold download
    rw [if_neg (by simp [hg])]
    simp only [storeGet, hf, hc, hu]
  · intro hc hu
    unfold download
    rw [if_neg (by simp [hg])]
    simp only [storeGet, hf, hc, hu]

theorem C7_witness :
    ((js "docs" : JStr) ≠ [] ∧ (js "a.txt" : JStr) ≠ [] ∧
      storeLookup demoStore (uploadUrl (js "docs") (js "a.txt")) = some demoFile) ∧
    ((∀ c, jsTruthyOpt demoFile.content = some c →
        download demoStore (js "docs") (js "a.txt") = .ok (.dataRes c)) ∧
      (jsTruthyOpt demoFile.content = none →
        ∀ u, jsTruthyOpt demoFile.download_url = some u →
          download demoStore (js "docs") (js "a.txt") = .ok (.urlRes u)) ∧
      (jsTruthyOpt demoFile.content = none → jsTruthyOpt demoFile.download_url = none →
        download demoStore (js "docs") (js "a.txt") = .error .integrity)) :=
  ⟨⟨by decide, by decide, by decide⟩,
    C7_download_fallback demoStore (js "docs") (js "a.txt") demoFile
      (by decide) (by decide) (by decide)⟩

/-- C1 (code bug): the claim — for a folder with a nested subdirectory, the
archive contains both the top-level file and the nested file — fails on the
code. In `listFilesInDirectory` the recursive call `await getFiles(item.path)`
(line 241) has no receiver; the class body is strict-mode code, so inside the
recursion `this` is `undefined` and `this.apiUrl` throws a TypeError, which
`downloadAll` wraps and rejects with: no archive is produced at all. (The
sibling `listAllFiles` recurses via `.call(this)` and is fine, and
`listFilesInDirectory`'s own doc comment promises subdirectories, so this is
a slip in the code.) This theorem evaluates the embedding at that input: the
tree has exactly two leaf files, yet the listing and the whole `downloadAll`
error out, while on a flat folder the produced archive has exactly its one
entry with the file's raw bytes under the file's name. -/
theorem C1_downloadAll_nested_bug :
    (specLeaves docsForest (js "docs")).length = 2 ∧
    listFilesInDirectory (js "docs") docsForest = .error () ∧
    downloadAll docsFetch docsForest (js "docs") (js "store") ⟨[], []⟩ =
      (.error (), ⟨[], []⟩) ∧
    (downloadAll docsFetch flatA (js "docs") (js "store") ⟨[], []⟩).2 =
      ⟨[js "store"], [(js "store/output.zip", [⟨js "a.txt", js "hello"⟩])]⟩ :=
  ⟨by decide, by decide, rfl, by decide⟩

/-- C8: within one `downloadAll` job, if the retrieval of any single listed
file fails, the whole job fails: the call propagates the failure and never
reaches the success path, so no archive is finalized as success and no
partial archive is returned. -/
theorem C8_downloadAll_abort (fetchBin : JStr → Except Unit JStr) (root : RForest)
    (filepath storagePath : JStr) (fs : FS) (files : List DlRec)
    (h1 : listFilesInDirectory filepath root = .ok files)
    (h2 : ∃ f ∈ files, fetchBin f.url = .error ()) :
    (downloadAll fetchBin root filepath storagePath fs).1 = .error () := by
  unfold downloadAll
  simp only [h1, fetchEntries_error fetchBin files h2]

theorem C8_witness :
    (listFilesInDirectory (js "docs") flatA =
        .ok [⟨js "a.txt", js "docs/a.txt", js "ra"⟩] ∧
      ∃ f ∈ [(⟨js "a.txt", js "docs/a.txt", js "ra"⟩ : DlRec)],
        failFetch f.url = .error ()) ∧
    (downloadAll failFetch flatA (js "docs") (js "store") ⟨[], []⟩).1 = .error () :=
  ⟨⟨by decide, ⟨⟨js "a.txt", js "docs/a.txt", js "ra"⟩, by decide, rfl⟩⟩,
    C8_downloadAll_abort failFetch flatA (js "docs") (js "store") ⟨[], []⟩
      [⟨js "a.txt", js "docs/a.txt", js "ra"⟩] (by decide)
      ⟨⟨js "a.txt", js "docs/a.txt", js "ra"⟩, by decide, rfl⟩⟩

/-- C10: whenever `downloadAll` reaches its writing phase (the listing and
each retrieval succeed), it ensures the storage directory exists — creating
it and its ancestors when absent — writes the archive at the fixed name
`output.zip` inside that directory, overwriting whatever was there, and the
returned promise resolves with that zip path exactly once the sink's `close`
event has fired and with nothing before. -/
theorem C10_downloadAll_storage (fetchBin : JStr → Except Unit JStr) (root : RForest)
    (filepath storagePath : JStr) (fs : FS) (files : List DlRec)
    (entries : List ZipEntry)
    (h1 : listFilesInDirectory filepath root = .ok files)
    (h2 : fetchEntries fetchBin files = .ok entries) :
    downloadAll fetchBin root filepath storagePath fs =
      (.ok ⟨pathJoin (pathJoinSingle storagePath) (js "output.zip"), entries,
          daPromise (pathJoin (pathJoinSingle storagePath) (js "output.zip"))⟩,
        ⟨(if pathJoinSingle storagePath ∈ fs.dirs then fs.dirs
            else mkdirRec fs.dirs (pathJoinSingle storagePath)),
          setFile (setFile fs.files (pathJoin (pathJoinSingle storagePath) (js "output.zip")) [])
            (pathJoin (pathJoinSingle storagePath) (js "output.zip")) entries⟩) ∧
    pathJoinSingle storagePath ∈ (downloadAll fetchBin root filepath storagePath fs).2.dirs ∧
    getFile (downloadAll fetchBin root filepath storagePath fs).2.files
      (pathJoin (pathJoinSingle storagePath) (js "output.zip")) = some entries ∧
    daPromise (pathJoin (pathJoinSingle storagePath) (js "output.zip")) false = none ∧
    daPromise (pathJoin (pathJoinSingle storagePath) (js "output.zip")) true =
      some (pathJoin (pathJoinSingle storagePath) (js "output.zip")) := by
  have hd : downloadAll fetchBin root filepath storagePath fs =
      (.ok ⟨pathJoin (pathJoinSingle storagePath) (js "output.zip"), entries,
          daPromise (pathJoin (pathJoinSingle storagePath) (js "output.zip"))⟩,
        ⟨(if pathJoinSingle storagePath ∈ fs.dirs then fs.dirs
            else mkdirRec fs.dirs (pathJoinSingle storagePath)),
          setFile (setFile fs.files (pathJoin (pathJoinSingle storagePath) (js "output.zip")) [])
            (pathJoin (pathJoinSingle storagePath) (js "output.zip")) entries⟩) := by
    unfold downloadAll
    simp only [h1, h2]
  refine ⟨hd, ?_, ?_, rfl, rfl⟩
  · rw [hd]
    by_cases hmem : pathJoinSingle storagePath ∈ fs.dirs
    · simp only [hmem, if_true]
    · simp only [hmem, if_false]
      exact List.mem_append_left _ (mem_dirChain_self (pathJoinSingle storagePath))
  · rw [hd]
    exact getFile_setFile _ _ _

theorem C10_witness :
    (listFilesInDirectory (js "docs") flatA =
        .ok [⟨js "a.txt", js "docs/a.txt", js "ra"⟩] ∧
      fetchEntries docsFetch [⟨js "a.txt", js "docs/a.txt", js "ra"⟩] =
        .ok [⟨js "a.txt", js "hello"⟩]) ∧
    (downloadAll docsFetch flatA (js "docs") (js "store") ⟨[], []⟩ =
        (.ok ⟨pathJoin (pathJoinSingle (js "store")) (js "output.zip"),
            [⟨js "a.txt", js "hello"⟩],
            daPromise (pathJoin (pathJoinSingle (js "store")) (js "output.zip"))⟩,
          ⟨(if pathJoinSingle (js "store") ∈ (⟨[], []⟩ : FS).dirs then (⟨[], []⟩ : FS).dirs
              else mkdirRec (⟨[], []⟩ : FS).dirs (pathJoinSingle (js "store"))),
            setFile (setFile (⟨[], []⟩ : FS).files
                (pathJoin (pathJoinSingle (js "store")) (js "output.zip")) [])
              (pathJoin (pathJoinSingle (js "store")) (js "output.zip"))
              [⟨js "a.txt", js "hello"⟩]⟩) ∧
      pathJoinSingle (js "store") ∈
        (downloadAll docsFetch flatA (js "docs") (js "store") ⟨[], []⟩).2.dirs ∧
      getFile (downloadAll docsFetch flatA (js "docs") (js "store") ⟨[], []⟩).2.files
        (pathJoin (pathJoinSingle (js "store")) (js "output.zip")) =
          some [⟨js "a.txt", js "hello"⟩] ∧
      daPromise (pathJoin (pathJoinSingle (js "store")) (js "output.zip")) false = none ∧
      daPromise (pathJoin (pathJoinSingle (js "store")) (js "output.zip")) true =
        some (pathJoin (pathJoinSingle (js "store")) (js "output.zip"))) :=
  ⟨⟨by decide, by decide⟩,
    C10_downloadAll_storage docsFetch flatA (js "docs") (js "store") ⟨[], []⟩
      [⟨js "a.txt", js "docs/a.txt", js "ra"⟩] [⟨js "a.txt", js "hello"⟩]
      (by decide) (by decide)⟩

example :
    (downloadAll (fun u => if u = js "u1" then .ok (js "hello") else .error ())
      (forestOf [.file (js "a.txt") (js "s1") (js "u1") (js "hello")])
      (js "docs") (js "store") ⟨[], []⟩).2 =
      ⟨[js "store"], [(js "store/output.zip", [⟨js "a.txt", js "hello"⟩])]⟩ := by decide
